import Mathlib

/-!
Verification of the callstack-reconstruction engine of
`stackcollapse_simpleperf.py`.

The Python program is shallowly embedded: Python strings become `List Char`
(`PyStr`), Python floats become exact rationals `ℚ`, Python dicts (which
preserve insertion order) become association lists `List (PyStr × ℚ)`, and
`sys.exit(1)` becomes an `Option`-valued result (`none` = abort).  While
loops over line indices become fuel-based recursions where the fuel is an
upper bound on the number of iterations (each iteration of the Python loop
advances the index by at least one, so `lines.length + 1` fuel is always
enough); loops that pop a list become recursions whose fuel is the list
length.  Every definition follows the corresponding Python code line by
line.
-/

set_option maxRecDepth 20000

namespace SPerf

/-- Python strings, modelled as lists of characters. -/
abbrev PyStr := List Char

/-- Python `str.strip()` whitespace (the ASCII whitespace characters). -/
def pyIsSpace (c : Char) : Bool :=
  c == ' ' || c == '\t' || c == '\n' || c == '\r' || c == '\x0b' || c == '\x0c'

/-- Python `str.lstrip()`. -/
def pyLStrip (s : PyStr) : PyStr := s.dropWhile pyIsSpace

/-- Python `str.rstrip()`. -/
def pyRStrip (s : PyStr) : PyStr := (s.reverse.dropWhile pyIsSpace).reverse

/-- Python `str.strip()`. -/
def pyStrip (s : PyStr) : PyStr := pyRStrip (pyLStrip s)

/-- Python `str.startswith(pre)`. -/
def pyStartsWith (s pre : PyStr) : Bool := pre.isPrefixOf s

/-- Python substring containment `pat in s`. -/
def pyContains : PyStr → PyStr → Bool
  | [], pat => pat.isEmpty
  | c :: t, pat => pat.isPrefixOf (c :: t) || pyContains t pat

/-- Python `str.rstrip('%')`. -/
def rstripPct (s : PyStr) : PyStr := (s.reverse.dropWhile (fun c => c == '%')).reverse

/-- Worker for `pyRemoveAll`; the fuel is an upper bound on the number of
remaining characters. -/
def pyRemoveAllGo (pat : PyStr) : ℕ → PyStr → PyStr
  | 0, s => s
  | _fuel + 1, [] => []
  | fuel + 1, c :: t =>
    if !pat.isEmpty && pat.isPrefixOf (c :: t) then
      pyRemoveAllGo pat fuel ((c :: t).drop pat.length)
    else c :: pyRemoveAllGo pat fuel t

/-- Python `s.replace(pat, '')`: delete every (leftmost, non-overlapping)
occurrence of `pat` in `s`. -/
def pyRemoveAll (pat s : PyStr) : PyStr := pyRemoveAllGo pat s.length s

/-- Numeric value of a decimal digit character. -/
def digitVal (c : Char) : ℕ := c.toNat - '0'.toNat

/-- `re.match(r'^\d+\.\d+%', s)` viewed as a boolean test: the string starts
with digits, a dot, digits and a percent sign. -/
def matchesPctNum (s : PyStr) : Bool :=
  let d1 := s.takeWhile Char.isDigit
  let r1 := s.dropWhile Char.isDigit
  if d1.isEmpty then false
  else
    match r1 with
    | '.' :: r2 =>
      let d2 := r2.takeWhile Char.isDigit
      let r3 := r2.dropWhile Char.isDigit
      if d2.isEmpty then false
      else
        match r3 with
        | '%' :: _ => true
        | _ => false
    | _ => false

/-- `re.search(r'\d+\.\d+%', s)` viewed as a boolean test (the pattern
matches at some position of `s`). -/
def searchPctNum : PyStr → Bool
  | [] => false
  | c :: t => matchesPctNum (c :: t) || searchPctNum t

/-- Reads a Python digit group `\d(\d|_\d)*` (underscores allowed between
digits, as in Python numeric literals accepted by `int`/`float`); returns
the value, the number of digits read and the rest of the string. -/
def digitsGroupAux (v k : ℕ) : PyStr → ℕ × ℕ × PyStr
  | '_' :: c :: t =>
    if c.isDigit then digitsGroupAux (v * 10 + digitVal c) (k + 1) t else (v, k, '_' :: c :: t)
  | c :: t =>
    if c.isDigit then digitsGroupAux (v * 10 + digitVal c) (k + 1) t else (v, k, c :: t)
  | [] => (v, k, [])

/-- Reads a leading digit group; `(value, digit count, rest)`. -/
def digitsGroup (s : PyStr) : ℕ × ℕ × PyStr :=
  match s with
  | c :: t => if c.isDigit then digitsGroupAux (digitVal c) 1 t else (0, 0, s)
  | [] => (0, 0, s)

/-- Python `int(s)`: optional surrounding whitespace, optional sign, a
digit group; anything else fails. -/
def pyInt (s : PyStr) : Option ℤ :=
  match pyStrip s with
  | '+' :: r =>
    let (v, k, rest) := digitsGroup r
    if k = 0 then none else if !rest.isEmpty then none else some (v : ℤ)
  | '-' :: r =>
    let (v, k, rest) := digitsGroup r
    if k = 0 then none else if !rest.isEmpty then none else some (-(v : ℤ))
  | r =>
    let (v, k, rest) := digitsGroup r
    if k = 0 then none else if !rest.isEmpty then none else some (v : ℤ)

/-- Exponent part of a Python float literal: `[+-]?\d+` scaling the
mantissa by a power of ten. -/
def expTail (m : ℚ) (s : PyStr) : Option ℚ :=
  match s with
  | '+' :: r =>
    let (ev, ek, r2) := digitsGroup r
    if ek = 0 then none else if !r2.isEmpty then none else some (m * (10 : ℚ) ^ ((ev : ℤ)))
  | '-' :: r =>
    let (ev, ek, r2) := digitsGroup r
    if ek = 0 then none else if !r2.isEmpty then none else some (m * (10 : ℚ) ^ (-(ev : ℤ)))
  | r =>
    let (ev, ek, r2) := digitsGroup r
    if ek = 0 then none else if !r2.isEmpty then none else some (m * (10 : ℚ) ^ ((ev : ℤ)))

/-- After the mantissa of a Python float: end of string, or an exponent. -/
def mantissaTail (m : ℚ) (s : PyStr) : Option ℚ :=
  match s with
  | [] => some m
  | 'e' :: r => expTail m r
  | 'E' :: r => expTail m r
  | _ => none

/-- Unsigned Python float literal: `\d+(\.\d*)?` or `\.\d+`, with an
optional exponent. -/
def pyFloatUnsigned (s : PyStr) : Option ℚ :=
  match s with
  | '.' :: r =>
    let (fv, fk, r2) := digitsGroup r
    if fk = 0 then none else mantissaTail ((fv : ℚ) / (10 : ℚ) ^ fk) r2
  | _ =>
    let (iv, ik, r1) := digitsGroup s
    if ik = 0 then none
    else
      match r1 with
      | '.' :: r2 =>
        let (fv, fk, r3) := digitsGroup r2
        mantissaTail ((iv : ℚ) + (fv : ℚ) / (10 : ℚ) ^ fk) r3
      | _ => mantissaTail (iv : ℚ) r1

/-- Python `float(s)` on decimal literals (`inf`/`nan` spellings are not
produced by this program's inputs and are not modelled). -/
def pyFloat (s : PyStr) : Option ℚ :=
  match pyStrip s with
  | '+' :: r => pyFloatUnsigned r
  | '-' :: r => (pyFloatUnsigned r).map (fun q => -q)
  | r => pyFloatUnsigned r

/-- Python `round` to an integer: round half to even. -/
def pyRound (q : ℚ) : ℤ :=
  let fl := ⌊q⌋
  let fr := q - (fl : ℚ)
  if fr < 1 / 2 then fl
  else if 1 / 2 < fr then fl + 1
  else if fl % 2 = 0 then fl else fl + 1

/-- Python `re.split(r'\s{2,}', s)` worker: split on maximal runs of at
least two whitespace characters; the fuel bounds the remaining length. -/
def splitWs2Go : ℕ → PyStr → PyStr → List PyStr
  | 0, cur, _ => [cur.reverse]
  | _fuel + 1, cur, [] => [cur.reverse]
  | fuel + 1, cur, c :: t =>
    if pyIsSpace c && (match t with | c2 :: _ => pyIsSpace c2 | [] => false) then
      cur.reverse :: splitWs2Go fuel [] ((c :: t).dropWhile pyIsSpace)
    else splitWs2Go fuel (c :: cur) t

/-- Python `re.split(r'\s{2,}', s)`. -/
def splitWs2 (s : PyStr) : List PyStr := splitWs2Go s.length [] s

/-- Python `s.split(';')` worker. -/
def splitOnSemiAux (cur : PyStr) : PyStr → List PyStr
  | [] => [cur.reverse]
  | c :: t => if c == ';' then cur.reverse :: splitOnSemiAux [] t else splitOnSemiAux (c :: cur) t

/-- Python `s.split(';')`. -/
def splitOnSemi (s : PyStr) : List PyStr := splitOnSemiAux [] s

/-- Python `';'.join(elems)`. -/
def joinSemi (elems : List PyStr) : PyStr := List.intercalate [';'] elems

/-- Ordered lookup with default `0.0`: Python `stacks.get(key, 0.0)`. -/
def lookupQ (m : List (PyStr × ℚ)) (k : PyStr) : ℚ :=
  match m with
  | [] => 0
  | (k', v) :: t => if k' = k then v else lookupQ t k

/-- Python `stacks[key] = stacks.get(key, 0.0) + v` on an insertion-ordered
dict: update the existing entry in place, or append a new one. -/
def addToQ (m : List (PyStr × ℚ)) (k : PyStr) (v : ℚ) : List (PyStr × ℚ) :=
  match m with
  | [] => [(k, v)]
  | (k', w) :: t => if k' = k then (k', w + v) :: t else (k', w) :: addToQ t k v

/-! String constants appearing in the source. -/

def cmdlineTok : PyStr := "Cmdline:".data

def archTok : PyStr := "Arch:".data

def eventTok : PyStr := "Event:".data

def samplesTok : PyStr := "Samples:".data

def errorCallchainsTok : PyStr := "Error Callchains:".data

def eventCountTok : PyStr := "Event count:".data

def childrenTok : PyStr := "Children".data

def selfTok : PyStr := "Self".data

def commandTok : PyStr := "Command".data

def skippedBriefTok : PyStr := "skipped in brief callgraph mode".data

def startThreadTok : PyStr := "__start_thread".data

def dashSpTok : PyStr := "-- ".data

def pipeDashTok : PyStr := "|--".data

def pipeTok : PyStr := "|".data

def dashDashTok : PyStr := "--".data

def unknownTok : PyStr := "Unknown".data

/-! ## Header scan (`parse_report_text`, lines 83–110) -/

/-- The `basic_info` dict collected from the header. -/
structure BasicInfo where
  cmdline : Option PyStr := none
  arch : Option PyStr := none
  event : Option PyStr := none
  samples : Option PyStr := none
  error_callchains : Option PyStr := none
  event_count : Option PyStr := none
deriving DecidableEq

/-- Header-scan state: `basic_info`, `event_count`, `total_samples`. -/
structure HeaderInfo where
  basic : BasicInfo
  event_count : Option ℤ
  total_samples : Option ℤ
deriving DecidableEq

/-- One iteration of the header loop `for line in lines[:40]`. -/
def headerLineStep (st : HeaderInfo) (line : PyStr) : HeaderInfo :=
  let s := pyStrip line
  if pyStartsWith s cmdlineTok then
    { st with basic := { st.basic with cmdline := some (pyStrip (pyRemoveAll cmdlineTok s)) } }
  else if pyStartsWith s archTok then
    { st with basic := { st.basic with arch := some (pyStrip (pyRemoveAll archTok s)) } }
  else if pyStartsWith s eventTok then
    { st with basic := { st.basic with event := some (pyStrip (pyRemoveAll eventTok s)) } }
  else if pyStartsWith s samplesTok then
    let v := pyStrip (pyRemoveAll samplesTok s)
    { st with
      basic := { st.basic with samples := some v },
      total_samples := (match pyInt v with | some n => some n | none => st.total_samples) }
  else if pyStartsWith s errorCallchainsTok then
    { st with basic := { st.basic with error_callchains := some (pyStrip (pyRemoveAll errorCallchainsTok s)) } }
  else if pyStartsWith s eventCountTok then
    let v := pyStrip (pyRemoveAll eventCountTok s)
    { st with
      basic := { st.basic with event_count := some v },
      event_count := (match pyInt v with | some n => some n | none => st.event_count) }
  else st

/-- The header loop `for line in lines[:40]`. -/
def scanHeader (lines : List PyStr) : HeaderInfo :=
  (lines.take 40).foldl headerLineStep
    { basic := {}, event_count := none, total_samples := none }

/-- Line 115 of the source:
`has_tree = any(l.strip().startswith('-- ') or ('|--' in l) for l in lines)`. -/
def has_tree (lines : List PyStr) : Bool :=
  lines.any (fun l => pyStartsWith (pyStrip l) dashSpTok || pyContains l pipeDashTok)

/-! ## Full-tree parser (`parse_callstack_tree_new`) -/

/-- An open frame: `{'name': …, 'pct': …, 'child': …}`. -/
structure Frame where
  name : PyStr
  pct : Option ℚ
  child : Bool
deriving DecidableEq

/-- The emission state threaded through `emit_leaf`: the `stacks` dict and
the `emitted` set of keys (kept as an ordered list). -/
structure TreeEmitSt where
  «stacks» : List (PyStr × ℚ)
  emitted : List PyStr
deriving DecidableEq

/-- `(children_pct / 100.0) if children_pct is not None else 1.0`. -/
def childrenFrac : Option ℚ → ℚ
  | some c => c / 100
  | none => 1

/-- `flatten_context(upto_level)`: concatenate the first `upto_level`
entries of the context stack. -/
def flatten_context (context_stack : List (List PyStr)) (upto_level : ℕ) : List PyStr :=
  (context_stack.take upto_level).flatten

/-- The serialized path built by `emit_leaf`:
`';'.join(base_path + ctx + [fr['name'] for fr in frames_prefix])`. -/
def tree_key (base_path : List PyStr) (context_stack : List (List PyStr))
    ( frames_prefix : List Frame) : PyStr :=
  joinSemi (base_path ++ flatten_context context_stack frames_prefix.length
    ++ frames_prefix.map (fun fr => fr.name))

/-- `emit_leaf(frames_prefix)` (source lines 329–344): multiply the root
`Children%` fraction by each frame's explicit percentage, skip if this
path was already emitted for this tree, otherwise accumulate the count. -/
def emit_leaf (children_pct : Option ℚ) (event_total : ℚ) (base_path : List PyStr)
    (context_stack : List (List PyStr)) (es : TreeEmitSt) ( frames_prefix : List Frame) :
    TreeEmitSt :=
  if frames_prefix.isEmpty then es
  else
    let frac := frames_prefix.foldl
      (fun a fr => match fr.pct with | some p => a * (p / 100) | none => a)
      (childrenFrac children_pct)
    let count_float := event_total * frac
    let key := tree_key base_path context_stack frames_prefix
    if key ∈ es.emitted then es
    else { «stacks» := addToQ es.stacks key count_float, emitted := es.emitted ++ [key] }

/-- Fallback frame for the (unreachable) pop of an empty frame list. -/
def frameDefault : Frame := { name := [], pct := none, child := false }

/-- The pop loop
`while len(frames) > depth: last = frames.pop(); if not last.get('child'): emit_leaf(frames + [last])`;
the fuel starts at `frames.length`, which is exact. -/
def popGo (cp : Option ℚ) (et : ℚ) (bp : List PyStr) (ctx : List (List PyStr)) :
    ℕ → List Frame → ℕ → TreeEmitSt → List Frame × TreeEmitSt
  | 0, frames, _depth, es => (frames, es)
  | fuel + 1, frames, depth, es =>
    if depth < frames.length then
      let last := frames.getLastD frameDefault
      let rest := frames.dropLast
      let es1 := if last.child then es else emit_leaf cp et bp ctx es (rest ++ [last])
      popGo cp et bp ctx fuel rest depth es1
    else (frames, es)

/-- Pop every open frame deeper than `depth`, emitting the childless ones
as leaves. -/
def popFrames (cp : Option ℚ) (et : ℚ) (bp : List PyStr) (ctx : List (List PyStr))
    (frames : List Frame) (depth : ℕ) (es : TreeEmitSt) : List Frame × TreeEmitSt :=
  popGo cp et bp ctx frames.length frames depth es

/-- `frames[-1]['child'] = True` (no-op on an empty list). -/
def markLastChild : List Frame → List Frame
  | [] => []
  | [fr] => [{ fr with child := true }]
  | fr :: rest => fr :: markLastChild rest

/-- The pending-context application block (source lines 374–381, 420–427,
445–453): pad the context stack with empty levels up to `depth`, then
append or extend at `depth`. -/
def applyPending (context_stack : List (List PyStr)) (pending : List PyStr) (depth : ℕ) :
    List (List PyStr) :=
  let cs := context_stack ++ List.replicate (depth - context_stack.length) []
  if cs.length = depth then cs ++ [pending] else cs.set depth (cs.getD depth [] ++ pending)

/-- Count the leading pipe characters of a tree row, skipping blanks and
tabs, stopping at any other character. -/
def pipeCount : PyStr → ℕ
  | [] => 0
  | c :: t =>
    if c == '|' then pipeCount t + 1
    else if c == ' ' || c == '\t' then pipeCount t
    else 0

/-- Try the branch-row pattern `\|--(\d+\.\d+%)--\s*(.+)` at the start of
`s`; on success return the percentage capture and the text after the
second `--` (whose `strip` is the captured function name). -/
def matchBranchAt (s : PyStr) : Option (PyStr × PyStr) :=
  match s with
  | '|' :: '-' :: '-' :: r =>
    let d1 := r.takeWhile Char.isDigit
    let r1 := r.dropWhile Char.isDigit
    if d1.isEmpty then none
    else
      match r1 with
      | '.' :: r2 =>
        let d2 := r2.takeWhile Char.isDigit
        let r3 := r2.dropWhile Char.isDigit
        if d2.isEmpty then none
        else
          match r3 with
          | '%' :: '-' :: '-' :: rest =>
            if rest.isEmpty then none else some (d1 ++ '.' :: d2 ++ ['%'], rest)
          | _ => none
      | _ => none
  | _ => none

/-- `re.search(r'\|--(\d+\.\d+%)--\s*(.+)', line)`: leftmost match. -/
def searchBranch : PyStr → Option (PyStr × PyStr)
  | [] => none
  | c :: t =>
    match matchBranchAt (c :: t) with
    | some x => some x
    | none => searchBranch t

/-- The mutable state of `parse_callstack_tree_new`'s walk. -/
structure TreeSt where
  frames : List Frame
  context_stack : List (List PyStr)
  pending_context : List PyStr
  pipe_base_depth : Option ℕ
  es : TreeEmitSt

/-- End of a tree walk (source lines 445–458): apply any pending context,
then flush all remaining open frames as leaves, deepest first. -/
def finishTree (cp : Option ℚ) (et : ℚ) (bp : List PyStr) (ts : TreeSt) : TreeEmitSt :=
  let ctx1 :=
    if !ts.pending_context.isEmpty then
      applyPending ts.context_stack ts.pending_context ts.frames.length
    else ts.context_stack
  (popFrames cp et bp ctx1 ts.frames 0 ts.es).2

/-- The row loop of `parse_callstack_tree_new` (source lines 346–443); the
fuel bounds the number of remaining rows. -/
def treeLoopGo (cp : Option ℚ) (et : ℚ) (bp : List PyStr) (lines : List PyStr) :
    ℕ → ℕ → TreeSt → TreeEmitSt
  | 0, _i, ts => finishTree cp et bp ts
  | fuel + 1, i, ts =>
    if h : i < lines.length then
      let line := lines.get ⟨i, h⟩
      if (pyStrip line).isEmpty then treeLoopGo cp et bp lines fuel (i + 1) ts
      else if matchesPctNum line || pyStartsWith line dashSpTok then finishTree cp et bp ts
      else if pyStrip line = pipeTok || pyContains line skippedBriefTok then
        treeLoopGo cp et bp lines fuel (i + 1) ts
      else
        let stripped_full := pyStrip line
        let stripped_l := pyLStrip line
        if !stripped_full.isEmpty && !pyStartsWith stripped_full pipeTok
            && !pyStartsWith stripped_full dashDashTok && !searchPctNum stripped_full then
          treeLoopGo cp et bp lines fuel (i + 1)
            { ts with
              frames := markLastChild ts.frames
                ++ [{ name := stripped_full, pct := none, child := false }] }
        else if pyStartsWith stripped_l dashSpTok then
          let func_name := pyStrip (stripped_l.drop 3)
          let ts1 :=
            if !ts.pending_context.isEmpty then
              { ts with
                context_stack := applyPending ts.context_stack ts.pending_context ts.frames.length,
                pending_context := [] }
            else ts
          if ts1.frames.any (fun fr => fr.name == func_name) then
            treeLoopGo cp et bp lines fuel (i + 1) { ts1 with frames := markLastChild ts1.frames }
          else
            treeLoopGo cp et bp lines fuel (i + 1)
              { ts1 with
                frames := markLastChild ts1.frames
                  ++ [{ name := func_name, pct := none, child := false }] }
        else
          match searchBranch line with
          | some (pctStr, rest) =>
            let func_name := pyStrip rest
            let pct_val := (pyFloat (rstripPct pctStr)).getD 0
            let rel_depth := pipeCount line - 1
            let base := match ts.pipe_base_depth with | some b => b | none => ts.frames.length
            let depth := base + rel_depth
            let popped := popFrames cp et bp ts.context_stack ts.frames depth ts.es
            let frames1 := popped.1
            let es1 := popped.2
            let ctx1 := ts.context_stack.take depth
            let cp2 :=
              if !ts.pending_context.isEmpty then
                (applyPending ctx1 ts.pending_context depth, ([] : List PyStr))
              else (ctx1, ts.pending_context)
            if frames1.any (fun fr => fr.name == func_name) then
              treeLoopGo cp et bp lines fuel (i + 1)
                { frames := markLastChild frames1,
                  context_stack := cp2.1,
                  pending_context := cp2.2,
                  pipe_base_depth := some base,
                  es := es1 }
            else
              let frames2 := markLastChild frames1
                ++ [{ name := func_name, pct := some pct_val, child := false }]
              if 512 < frames2.length then
                finishTree cp et bp
                  { frames := frames2,
                    context_stack := cp2.1,
                    pending_context := cp2.2,
                    pipe_base_depth := some base,
                    es := emit_leaf cp et bp cp2.1 es1 frames2 }
              else
                treeLoopGo cp et bp lines fuel (i + 1)
                  { frames := frames2,
                    context_stack := cp2.1,
                    pending_context := cp2.2,
                    pipe_base_depth := some base,
                    es := es1 }
          | none => treeLoopGo cp et bp lines fuel (i + 1) ts
    else finishTree cp et bp ts

/-- `parse_callstack_tree_new(lines, start_idx, command, children_pct,
events_per_sample, total_samples)` (source lines 306–460). -/
def parse_callstack_tree_new (lines : List PyStr) (start_idx : ℕ) (command : PyStr)
    (children_pct : Option ℚ) (events_per_sample total_samples : ℚ) : List (PyStr × ℚ) :=
  let root_line := pyStrip (lines.getD start_idx [])
  if !pyStartsWith root_line dashSpTok then []
  else
    let root_func := pyStrip (root_line.drop 3)
    let base_path :=
      if !command.isEmpty && command ≠ unknownTok then [command, root_func] else [root_func]
    let event_total := events_per_sample * total_samples
    (treeLoopGo children_pct event_total base_path lines (lines.length + 1) (start_idx + 1)
      { frames := [],
        context_stack := [],
        pending_context := [],
        pipe_base_depth := none,
        es := { «stacks» := [], emitted := [] } }).stacks

/-! ## Per-entry parser (`parse_entry_callstack`) and helpers -/

/-- `skip_to_next_main_entry(lines, i)` (source lines 477–484): first index
`j ≥ i` whose raw line matches `^\d+\.\d+%`, or `lines.length`. -/
def skip_to_next_main_entry (lines : List PyStr) (i : ℕ) : ℕ :=
  i + ((lines.drop i).takeWhile (fun l => !matchesPctNum l)).length

/-- `skip_to_next_tree_or_main_entry(lines, start_idx)` (source lines
463–474): first index `j > start_idx` whose raw line matches the
main-entry pattern or starts with the root marker, or `lines.length`. -/
def skip_to_next_tree_or_main_entry (lines : List PyStr) (start_idx : ℕ) : ℕ :=
  (start_idx + 1)
    + ((lines.drop (start_idx + 1)).takeWhile
        (fun l => !(matchesPctNum l || pyStartsWith l dashSpTok))).length

/-- The root-sum equalization block (source lines 290–296): if the raw sum
and the declared block total are both positive, rescale every count by
`block_total / ssum`. -/
def equalizeStep (tree_stacks : List (PyStr × ℚ)) (block_total : ℚ) : List (PyStr × ℚ) :=
  let ssum := (tree_stacks.map (fun p => p.2)).sum
  if 0 < ssum ∧ 0 < block_total then
    tree_stacks.map (fun p => (p.1, p.2 * (block_total / ssum)))
  else tree_stacks

/-- The scan loop of `parse_entry_callstack` (source lines 270–303); the
fuel bounds the number of iterations. -/
def entryGo (lines : List PyStr) (command : PyStr) (children_pct : ℚ)
    (events_per_sample total_samples : ℚ) (equalize_root_sum : Bool) :
    ℕ → ℕ → List (PyStr × ℚ) → List (PyStr × ℚ)
  | 0, _i, acc => acc
  | fuel + 1, i, acc =>
    if h : i < lines.length then
      let line := lines.get ⟨i, h⟩
      if (pyStrip line).isEmpty then
        entryGo lines command children_pct events_per_sample total_samples equalize_root_sum
          fuel (i + 1) acc
      else if matchesPctNum line then acc
      else if pyStrip line = pipeTok || pyContains line skippedBriefTok then
        entryGo lines command children_pct events_per_sample total_samples equalize_root_sum
          fuel (i + 1) acc
      else if pyStartsWith (pyStrip line) dashSpTok then
        let root_func := pyStrip ((pyStrip line).drop 3)
        let acc1 :=
          if !root_func.isEmpty && 1 < root_func.length then
            let tree_stacks := parse_callstack_tree_new lines i command (some children_pct)
              events_per_sample total_samples
            let tree_stacks :=
              if equalize_root_sum && pyContains root_func startThreadTok then
                let event_total := events_per_sample * total_samples
                equalizeStep tree_stacks (event_total * (children_pct / 100))
              else tree_stacks
            tree_stacks.foldl (fun m p => addToQ m p.1 p.2) acc
          else acc
        entryGo lines command children_pct events_per_sample total_samples equalize_root_sum
          fuel (skip_to_next_tree_or_main_entry lines i) acc1
      else
        entryGo lines command children_pct events_per_sample total_samples equalize_root_sum
          fuel (i + 1) acc
    else acc

/-- `parse_entry_callstack(lines, start_idx, command, children_pct,
events_per_sample, total_samples, equalize_root_sum)` (source lines
270–303). -/
def parse_entry_callstack (lines : List PyStr) (start_idx : ℕ) (command : PyStr)
    (children_pct : ℚ) (events_per_sample total_samples : ℚ) (equalize_root_sum : Bool) :
    List (PyStr × ℚ) :=
  entryGo lines command children_pct events_per_sample total_samples equalize_root_sum
    (lines.length + 1) start_idx []

/-! ## Brief mode and the main row loop (`parse_report_text`) -/

/-- A parsed top-level table row (source lines 168–180). -/
structure Row where
  command : PyStr
  pid : PyStr
  tid : PyStr
  symbol : PyStr
  pct : ℚ
deriving DecidableEq

/-- The `current` brief-mode block dict. -/
structure Block where
  thread_key : PyStr × PyStr × PyStr
  command : PyStr
  symbols : List PyStr
  block_pct : ℚ
  skip : Bool
deriving DecidableEq

/-- The mutable state of `parse_report_text`'s row loop. -/
structure ReportState where
  «stacks» : List (PyStr × ℚ)
  current : Option Block
  emitted_threads : List (PyStr × PyStr × PyStr)
deriving DecidableEq

/-- Python `set.add` on the `emitted_threads` set (kept as a list). -/
def addThread (k : PyStr × PyStr × PyStr) (l : List (PyStr × PyStr × PyStr)) :
    List (PyStr × PyStr × PyStr) :=
  if k ∈ l then l else l ++ [k]

/-- A fresh brief-mode block for a row (source lines 208–214, 223–229). -/
def newBlock (r : Row) : Block :=
  { thread_key := (r.command, r.pid, r.tid),
    command := r.command,
    symbols := if r.symbol.isEmpty then [] else [r.symbol],
    block_pct := r.pct,
    skip := false }

/-- `flush_current_block()` (source lines 122–146). -/
def flush_current_block (reverse dedug_first_start : Bool) (event_total : ℚ)
    (st : ReportState) : ReportState :=
  match st.current with
  | none => st
  | some cur =>
    if cur.symbols.isEmpty then st
    else if cur.skip then st
    else
      let should_emit :=
        if dedug_first_start then
          if cur.thread_key ∈ st.emitted_threads then false
          else pyContains (cur.symbols.headD []) startThreadTok
        else true
      if should_emit then
        let elems := cur.command :: cur.symbols
        let elems := if reverse then elems.reverse else elems
        let key := joinSemi elems
        let cnt_float := event_total * (cur.block_pct / 100)
        { st with
          «stacks» := if 0 < cnt_float then addToQ st.stacks key cnt_float else st.stacks,
          emitted_threads :=
            if dedug_first_start then addThread cur.thread_key st.emitted_threads
            else st.emitted_threads }
      else st

/-- The brief-mode handling of one top-level row (source lines 206–230):
start a block, extend the current block (skipping empty or repeated
symbols), or flush and restart on a thread change. -/
def briefRowStep (reverse dedug_first_start : Bool) (event_total : ℚ)
    (st : ReportState) (r : Row) : ReportState :=
  let key_thread := (r.command, r.pid, r.tid)
  match st.current with
  | none => { st with current := some (newBlock r) }
  | some cur =>
    if key_thread = cur.thread_key then
      if !r.symbol.isEmpty && (cur.symbols.isEmpty || !(cur.symbols.getLastD [] == r.symbol)) then
        { st with current := some { cur with symbols := cur.symbols ++ [r.symbol] } }
      else st
    else
      let st1 := flush_current_block reverse dedug_first_start event_total st
      { st1 with current := some (newBlock r) }

/-- The main row loop of `parse_report_text` (source lines 148–233); the
fuel bounds the number of iterations (the index advances by at least one
in every iteration). -/
def reportGo (reverse dedug_first_start equalize_root_sum : Bool) (lines : List PyStr)
    (ht : Bool) (events_per_sample total_samples event_total : ℚ) :
    ℕ → ℕ → ReportState → ReportState
  | 0, _i, st => st
  | fuel + 1, i, st =>
    if h : i < lines.length then
      let line := pyRStrip (lines.get ⟨i, h⟩)
      if line.isEmpty then
        reportGo reverse dedug_first_start equalize_root_sum lines ht events_per_sample
          total_samples event_total fuel (i + 1) st
      else if pyStartsWith line cmdlineTok || pyStartsWith line archTok
          || pyStartsWith line eventTok || pyStartsWith line samplesTok
          || pyStartsWith line errorCallchainsTok || pyStartsWith line eventCountTok then
        reportGo reverse dedug_first_start equalize_root_sum lines ht events_per_sample
          total_samples event_total fuel (i + 1) st
      else if pyContains line childrenTok && pyContains line selfTok
          && pyContains line commandTok then
        reportGo reverse dedug_first_start equalize_root_sum lines ht events_per_sample
          total_samples event_total fuel (i + 1) st
      else if pyContains line skippedBriefTok then
        let st1 :=
          if !ht && st.current.isSome then
            { st with current := st.current.map (fun c => { c with skip := true }) }
          else st
        reportGo reverse dedug_first_start equalize_root_sum lines ht events_per_sample
          total_samples event_total fuel (i + 1) st1
      else if matchesPctNum line then
        let parts := splitWs2 line
        if parts.length < 6 then
          reportGo reverse dedug_first_start equalize_root_sum lines ht events_per_sample
            total_samples event_total fuel (i + 1) st
        else
          let command := pyStrip (parts.getD 2 [])
          let pid := if 3 < parts.length then pyStrip (parts.getD 3 []) else []
          let tid := if 4 < parts.length then pyStrip (parts.getD 4 []) else []
          let symbol := pyStrip (parts.getLastD [])
          let children_pct_val :=
            match pyFloat (rstripPct (pyStrip (parts.getD 0 []))) with
            | some v => v
            | none => 100
          if ht then
            let key_thread := (command, pid, tid)
            if dedug_first_start && decide (key_thread ∈ st.emitted_threads) then
              reportGo reverse dedug_first_start equalize_root_sum lines ht events_per_sample
                total_samples event_total fuel (skip_to_next_main_entry lines (i + 1)) st
            else if dedug_first_start && !pyContains symbol startThreadTok then
              reportGo reverse dedug_first_start equalize_root_sum lines ht events_per_sample
                total_samples event_total fuel (skip_to_next_main_entry lines (i + 1)) st
            else
              let tree_stacks := parse_entry_callstack lines (i + 1) command children_pct_val
                events_per_sample total_samples equalize_root_sum
              let newStacks := tree_stacks.foldl
                (fun m p =>
                  let stk := if reverse then joinSemi ((splitOnSemi p.1).reverse) else p.1
                  if p.2 ≤ 0 then m else addToQ m stk p.2)
                st.stacks
              let st1 :=
                { st with
                  «stacks» := newStacks,
                  emitted_threads :=
                    if dedug_first_start then addThread key_thread st.emitted_threads
                    else st.emitted_threads }
              reportGo reverse dedug_first_start equalize_root_sum lines ht events_per_sample
                total_samples event_total fuel (skip_to_next_main_entry lines (i + 1)) st1
          else
            reportGo reverse dedug_first_start equalize_root_sum lines ht events_per_sample
              total_samples event_total fuel (i + 1)
              (briefRowStep reverse dedug_first_start event_total st
                { command := command, pid := pid, tid := tid, symbol := symbol,
                  pct := children_pct_val })
      else
        reportGo reverse dedug_first_start equalize_root_sum lines ht events_per_sample
          total_samples event_total fuel (i + 1) st
    else st

/-- Final filtering and rounding (source line 240):
`{k: int(round(v)) for k, v in stacks.items() if v > 0}`. -/
def finalize_stacks (m : List (PyStr × ℚ)) : List (PyStr × ℤ) :=
  (m.filter (fun p => 0 < p.2)).map (fun p => (p.1, pyRound p.2))

/-- The value returned by `parse_report_text`. -/
structure ReportResult where
  final : List (PyStr × ℤ)
  event_count : ℤ
  total_samples : ℤ
  basic : BasicInfo
  raw : List (PyStr × ℚ)
deriving DecidableEq

/-- `parse_report_text(text, reverse, dedug_first_start, equalize_root_sum)`
(source lines 78–241), over the line list `text.splitlines()`; `none`
models `sys.exit(1)`. -/
def parse_report_text (lines : List PyStr)
    (reverse dedug_first_start equalize_root_sum : Bool) : Option ReportResult :=
  let hst := scanHeader lines
  match hst.event_count, hst.total_samples with
  | some ec, some ts =>
    let events_per_sample : ℚ := if 0 < ts then (ec : ℚ) / (ts : ℚ) else 1
    let event_total := events_per_sample * (ts : ℚ)
    let ht := has_tree lines
    let st := reportGo reverse dedug_first_start equalize_root_sum lines ht events_per_sample
      (ts : ℚ) event_total (lines.length + 1) 0
      { «stacks» := [], current := none, emitted_threads := [] }
    let st2 :=
      if !ht && (match st.current with | some c => !c.symbols.isEmpty | none => false) then
        flush_current_block reverse dedug_first_start event_total st
      else st
    some
      { final := finalize_stacks st2.stacks,
        event_count := ec,
        total_samples := ts,
        basic := hst.basic,
        raw := st2.stacks }
  | _, _ => none

/-! ## Helper lemmas -/

/-- The multiplicative factor a frame contributes to a leaf count: its
explicit percentage over 100, or 1 when it has none. -/
def frameFactor (fr : Frame) : ℚ :=
  match fr.pct with
  | some p => p / 100
  | none => 1

theorem lookupQ_addToQ (m : List (PyStr × ℚ)) (k : PyStr) (v : ℚ) :
    lookupQ (addToQ m k v) k = lookupQ m k + v := by
  induction m with
  | nil => simp [addToQ, lookupQ]
  | cons p t ih =>
    obtain ⟨k', w⟩ := p
    by_cases hk : k' = k
    · simp [addToQ, lookupQ, hk]
    · simp [addToQ, lookupQ, hk, ih]

theorem pctFoldl_eq_mul_prod (l : List Frame) (a : ℚ) :
    l.foldl (fun a fr => match fr.pct with | some p => a * (p / 100) | none => a) a
      = a * (l.map frameFactor).prod := by
  induction l generalizing a with
  | nil => simp
  | cons fr t ih =>
    cases h : fr.pct with
    | none => simp [h, ih, frameFactor, mul_assoc]
    | some p => simp [h, ih, frameFactor, mul_assoc]

theorem emit_leaf_fresh (cp : Option ℚ) (et : ℚ) (bp : List PyStr)
    (ctx : List (List PyStr)) (es : TreeEmitSt) (fp : List Frame)
    (hfp : fp ≠ []) (hkey : tree_key bp ctx fp ∉ es.emitted) :
    emit_leaf cp et bp ctx es fp
      = { «stacks» := addToQ es.stacks (tree_key bp ctx fp)
            (et * (childrenFrac cp * (fp.map frameFactor).prod)),
          emitted := es.emitted ++ [tree_key bp ctx fp] } := by
  have h1 : fp.isEmpty = false := by simpa [List.isEmpty_iff] using hfp
  simp [emit_leaf, h1, hkey, pctFoldl_eq_mul_prod]

theorem emit_leaf_emitted (cp : Option ℚ) (et : ℚ) (bp : List PyStr)
    (ctx : List (List PyStr)) (es : TreeEmitSt) (fp : List Frame)
    (hkey : tree_key bp ctx fp ∈ es.emitted) :
    emit_leaf cp et bp ctx es fp = es := by
  by_cases h1 : fp.isEmpty
  · simp [emit_leaf, h1]
  · simp [emit_leaf, h1, hkey]

/-! ## Claims -/

/-- C1: every leaf emitted by the full-tree parser carries the count
`event_total × (Children% / 100) × Π (frame.pct / 100)`, where a frame
without an explicit percentage contributes the factor 1 (`frameFactor`);
in particular, the straight-line tree `root → a(40%) → b(50%)` with
`Children% = 100` and `event_total = 100 × 10 = 1000` emits the single
path `cmd;root;a;b` with count `1000 × 1 × 0.4 × 0.5 = 200`. -/
theorem c1_leaf_count_rule :
    (∀ (cp : Option ℚ) (et : ℚ) (bp : List PyStr) (ctx : List (List PyStr))
        (es : TreeEmitSt) (fp : List Frame),
      fp ≠ [] → tree_key bp ctx fp ∉ es.emitted →
      lookupQ (emit_leaf cp et bp ctx es fp).stacks (tree_key bp ctx fp)
        = lookupQ es.stacks (tree_key bp ctx fp)
          + et * (childrenFrac cp * (fp.map frameFactor).prod))
    ∧ parse_callstack_tree_new
        ["-- root".data, "   |--40.00%-- a".data, "   | |--50.00%-- b".data] 0
        ("cmd".data) (some 100) 100 10
      = [("cmd;root;a;b".data, 200)] := by
  constructor
  · intro cp et bp ctx es fp hfp hkey
    rw [emit_leaf_fresh cp et bp ctx es fp hfp hkey]
    exact lookupQ_addToQ es.stacks (tree_key bp ctx fp) _
  · with_unfolding_all rfl

/-- Witness for C1: the leaf-count rule evaluated at the concrete state of
the `root → a(40%) → b(50%)` example. -/
theorem c1_leaf_count_rule_witness :
    lookupQ
      (emit_leaf (some 100) 1000 ["cmd".data, "root".data] []
        { «stacks» := [], emitted := [] }
        [{ name := "a".data, pct := some 40, child := true },
         { name := "b".data, pct := some 50, child := false }]).stacks
      (tree_key ["cmd".data, "root".data] []
        [{ name := "a".data, pct := some 40, child := true },
         { name := "b".data, pct := some 50, child := false }])
    = lookupQ []
        (tree_key ["cmd".data, "root".data] []
          [{ name := "a".data, pct := some 40, child := true },
           { name := "b".data, pct := some 50, child := false }])
      + 1000 * (childrenFrac (some 100)
        * (([{ name := "a".data, pct := some 40, child := true },
             { name := "b".data, pct := some 50, child := false }].map frameFactor)).prod) :=
  c1_leaf_count_rule.1 (some 100) 1000 ["cmd".data, "root".data] []
    { «stacks» := [], emitted := [] } _ (by decide) (by decide)

theorem foldl_congr_mem {α β : Type _} (l : List β) (f g : α → β → α) (a : α)
    (h : ∀ acc x, x ∈ l → f acc x = g acc x) : l.foldl f a = l.foldl g a := by
  induction l generalizing a with
  | nil => rfl
  | cons x t ih =>
    simp only [List.foldl_cons]
    rw [h a x (by simp)]
    exact ih _ (fun acc y hy => h acc y (by simp [hy]))

/-- What the pop loop does, described as a right-to-left sweep over the
popped indices: every index `j` from `frames.length - 1` down to `depth`
is inspected, and `emit_leaf` is called on the prefix `frames.take (j+1)`
exactly when the frame at `j` has no recorded child. -/
def popSpecFold (cp : Option ℚ) (et : ℚ) (bp : List PyStr) (ctx : List (List PyStr))
    (frames : List Frame) (depth : ℕ) (es : TreeEmitSt) : TreeEmitSt :=
  ((List.range' depth (frames.length - depth)).reverse).foldl
    (fun acc j =>
      if (frames.getD j frameDefault).child then acc
      else emit_leaf cp et bp ctx acc (frames.take (j + 1)))
    es

theorem popGo_spec (cp : Option ℚ) (et : ℚ) (bp : List PyStr) (ctx : List (List PyStr))
    (frames : List Frame) : ∀ (depth : ℕ) (es : TreeEmitSt),
    popGo cp et bp ctx frames.length frames depth es
      = (frames.take depth, popSpecFold cp et bp ctx frames depth es) := by
  induction frames using List.reverseRecOn with
  | nil => intro depth es; simp [popGo, popSpecFold]
  | append_singleton xs x ih =>
    intro depth es
    have hlen : (xs ++ [x]).length = xs.length + 1 := by simp
    by_cases hd : depth < xs.length + 1
    · have hdle : depth ≤ xs.length := Nat.lt_succ_iff.mp hd
      rw [hlen, popGo]
      simp only [hlen, hd, if_pos, List.getLastD_concat, List.dropLast_concat]
      rw [ih depth _]
      have htake : (xs ++ [x]).take depth = xs.take depth :=
        List.take_append_of_le_length hdle
      have hrange : (xs ++ [x]).length - depth = (xs.length - depth) + 1 := by omega
      have hfold :
          popSpecFold cp et bp ctx (xs ++ [x]) depth es
            = popSpecFold cp et bp ctx xs depth
                (if x.child then es else emit_leaf cp et bp ctx es (xs ++ [x])) := by
        unfold popSpecFold
        rw [hrange, List.range'_concat]
        have hn : depth + 1 * (xs.length - depth) = xs.length := by omega
        rw [hn, List.reverse_append]
        simp only [List.reverse_singleton, List.singleton_append, List.foldl_cons]
        have hgx : ((xs ++ [x]).getD xs.length frameDefault) = x := by
          rw [List.getD_append_right xs [x] frameDefault xs.length (Nat.le_refl _)]
          simp
        have htx : (xs ++ [x]).take (xs.length + 1) = xs ++ [x] := by
          apply List.take_of_length_le; simp
        rw [hgx, htx]
        exact foldl_congr_mem _ _ _ _ (by
          intro acc j hj
          rw [List.mem_reverse, List.mem_range'] at hj
          obtain ⟨i, hi, rfl⟩ := hj
          have hjlt : depth + 1 * i < xs.length := by omega
          rw [List.getD_append xs [x] frameDefault _ (by omega),
            List.take_append_of_le_length (by omega)])
      rw [hfold, htake]
    · have hge : xs.length + 1 ≤ depth := Nat.le_of_not_lt hd
      rw [hlen, popGo]
      simp only [hlen, hd, if_neg, not_false_iff]
      have h1 : (xs ++ [x]).take depth = xs ++ [x] := by
        apply List.take_of_length_le; omega
      have h2 : popSpecFold cp et bp ctx (xs ++ [x]) depth es = es := by
        unfold popSpecFold
        have : (xs ++ [x]).length - depth = 0 := by simp; omega
        rw [this]
        rfl
      rw [h1, h2]

/-- C2, amended.  First conjunct: the pop loop `popFrames` leaves the
frames above `depth` in place and performs, for each popped index from the
deepest to `depth`, a leaf emission exactly when that frame has no
recorded child — so a frame that acquired a child is never emitted as its
own terminal stack entry, and each childless popped frame triggers exactly
one `emit_leaf` call on its own path prefix.  Second conjunct: an
`emit_leaf` call whose serialized path was already emitted in the same
tree leaves the state unchanged, so a childless frame's emission is
recorded at most once per distinct path (not "exactly once" as the
original claim stated). -/
theorem c2_leaf_only_emission :
    (∀ (cp : Option ℚ) (et : ℚ) (bp : List PyStr) (ctx : List (List PyStr))
        (frames : List Frame) (depth : ℕ) (es : TreeEmitSt),
      popFrames cp et bp ctx frames depth es
        = (frames.take depth,
           ((List.range' depth (frames.length - depth)).reverse).foldl
             (fun acc j =>
               if (frames.getD j frameDefault).child then acc
               else emit_leaf cp et bp ctx acc (frames.take (j + 1)))
             es))
    ∧ (∀ (cp : Option ℚ) (et : ℚ) (bp : List PyStr) (ctx : List (List PyStr))
        (es : TreeEmitSt) (fp : List Frame),
      tree_key bp ctx fp ∈ es.emitted → emit_leaf cp et bp ctx es fp = es) := by
  constructor
  · intro cp et bp ctx frames depth es
    exact popGo_spec cp et bp ctx frames depth es
  · intro cp et bp ctx es fp hkey
    exact emit_leaf_emitted cp et bp ctx es fp hkey

/-- Witness for C2: both parts applied at concrete states — popping one
child-marked frame emits nothing, and re-emitting an already-emitted path
leaves the state unchanged. -/
theorem c2_leaf_only_emission_witness :
    popFrames none 1000 ["r".data] [] [{ name := "f".data, pct := none, child := true }] 0
        { «stacks» := [], emitted := [] }
      = ([],
         ((List.range' 0 (1 - 0)).reverse).foldl
           (fun acc j =>
             if (([{ name := "f".data, pct := none, child := true }].getD j frameDefault)).child
             then acc
             else emit_leaf none 1000 ["r".data] [] acc
               ([{ name := "f".data, pct := none, child := true }].take (j + 1)))
           { «stacks» := [], emitted := [] })
    ∧ emit_leaf none 1000 ["r".data] []
        { «stacks» := [(joinSemi ["r".data, "f".data], 5)],
          emitted := [joinSemi ["r".data, "f".data]] }
        [{ name := "f".data, pct := none, child := false }]
      = { «stacks» := [(joinSemi ["r".data, "f".data], 5)],
          emitted := [joinSemi ["r".data, "f".data]] } :=
  ⟨by
    have h := c2_leaf_only_emission.1 none 1000 ["r".data] []
      [{ name := "f".data, pct := none, child := true }] 0 { «stacks» := [], emitted := [] }
    simpa using h,
   c2_leaf_only_emission.2 none 1000 ["r".data] [] _ _ (by
    with_unfolding_all decide)⟩

/-- Counterexample for C2 as stated: in the tree
`root → x(30%), root → x(40%)` both `x` occurrences are childless frames,
but only the first is emitted (count `1000 × 0.3 = 300`); the second
occurrence's emission is suppressed by the per-tree `emitted` set, so the
final map holds `300`, not the `300 + 400 = 700` that one emission per
childless occurrence would produce. -/
theorem c2_counterexample :
    parse_callstack_tree_new
        ["-- root".data, "   |--30.00%-- x".data, "   |--40.00%-- x".data] 0
        ("cmd".data) (some 100) 100 10
      = [("cmd;root;x".data, 300)]
    ∧ (300 : ℚ) ≠ 300 + 400 := by
  constructor
  · with_unfolding_all rfl
  · norm_num

theorem markLastChild_map_name (frames : List Frame) :
    (markLastChild frames).map (fun fr => fr.name) = frames.map (fun fr => fr.name) := by
  induction frames with
  | nil => rfl
  | cons fr rest ih =>
    cases rest with
    | nil => rfl
    | cons fr2 rest2 =>
      simp only [markLastChild, List.map_cons, List.cons.injEq, true_and]
      simpa using ih

theorem markLastChild_length (frames : List Frame) :
    (markLastChild frames).length = frames.length := by
  induction frames with
  | nil => rfl
  | cons fr rest ih =>
    cases rest with
    | nil => rfl
    | cons fr2 rest2 =>
      simp only [markLastChild, List.length_cons]
      simpa using ih

theorem markLastChild_getLastD (fr : Frame) (rest : List Frame) (d : Frame) :
    (markLastChild (fr :: rest)).getLastD d
      = { (fr :: rest).getLastD d with child := true } := by
  induction rest generalizing fr with
  | nil => rfl
  | cons fr2 rest2 ih =>
    simp only [markLastChild]
    rw [show (fr :: markLastChild (fr2 :: rest2)).getLastD d
        = (markLastChild (fr2 :: rest2)).getLastD d from by
      cases h : markLastChild (fr2 :: rest2) with
      | nil => exact absurd (congrArg List.length h) (by simp [markLastChild_length])
      | cons a t => simp]
    rw [ih fr2]
    cases rest2 <;> simp

/-- C6, amended.  On root-marker (`-- `) and percentage-branch rows the
duplicate check applies: when the incoming name is already among the open
frames, the parser only runs `frames[-1]['child'] = True`
(`markLastChild`), which changes no frame name and pushes nothing, so
those rows never introduce a duplicate open-frame name.  The marked frame
then counts as internal, so a direct-recursion row additionally suppresses
the recursive frame's own leaf emission (see the counterexample: the
original claim's example `root → f → f` emits nothing, not a path with
one `f`; implicit rows, which bypass the check, can still duplicate
names). -/
theorem c6_recursion_guard :
    (∀ frames : List Frame,
      (markLastChild frames).map (fun fr => fr.name) = frames.map (fun fr => fr.name))
    ∧ (∀ frames : List Frame, (markLastChild frames).length = frames.length)
    ∧ (∀ (fr : Frame) (rest : List Frame) (d : Frame),
      (markLastChild (fr :: rest)).getLastD d
        = { (fr :: rest).getLastD d with child := true }) :=
  ⟨markLastChild_map_name, markLastChild_length, markLastChild_getLastD⟩

/-- Counterexample for C6 as stated: the directly recursive tree
`root → f(40%) → f(50%)` does not yield an emitted path with exactly one
`f` — the recursion guard marks the open `f` as having a child, so the
tree emits nothing at all. -/
theorem c6_counterexample :
    parse_callstack_tree_new
        ["-- root".data, "   |--40.00%-- f".data, "   | |--50.00%-- f".data] 0
        ("cmd".data) (some 100) 100 10
      = []
    ∧ ∀ p : PyStr × ℚ,
        p ∉ parse_callstack_tree_new
          ["-- root".data, "   |--40.00%-- f".data, "   | |--50.00%-- f".data] 0
          ("cmd".data) (some 100) 100 10 := by
  constructor
  · with_unfolding_all rfl
  · intro p hp
    rw [show parse_callstack_tree_new
          ["-- root".data, "   |--40.00%-- f".data, "   | |--50.00%-- f".data] 0
          ("cmd".data) (some 100) 100 10 = [] from by with_unfolding_all rfl] at hp
    exact absurd hp (List.not_mem_nil p)

theorem sum_map_scale (ts : List (PyStr × ℚ)) (c : ℚ) :
    ((ts.map (fun p => (p.1, p.2 * c))).map (fun p => p.2)).sum
      = ((ts.map (fun p => p.2)).sum) * c := by
  induction ts with
  | nil => simp
  | cons p t ih =>
    simp only [List.map_cons, List.sum_cons, add_mul, ← ih]

/-- C8, amended.  The equalization step multiplies every leaf count under
the root by the single factor `block_total / ssum` whenever the raw sum
`ssum` and the declared share `block_total` are both positive; the scaled
counts then sum exactly to `block_total`, and each leaf's fraction of the
total is unchanged.  (The original claim omitted that
`parse_entry_callstack` applies this step only to roots whose symbol
contains `__start_thread`; the counterexample shows an ordinary root left
unscaled.) -/
theorem c8_equalization :
    ∀ (ts : List (PyStr × ℚ)) (bt : ℚ),
      0 < (ts.map (fun p => p.2)).sum → 0 < bt →
      equalizeStep ts bt
          = ts.map (fun p => (p.1, p.2 * (bt / (ts.map (fun q => q.2)).sum)))
        ∧ ((equalizeStep ts bt).map (fun p => p.2)).sum = bt
        ∧ ∀ p ∈ ts,
            p.2 * (bt / (ts.map (fun q => q.2)).sum) / bt
              = p.2 / (ts.map (fun q => q.2)).sum := by
  intro ts bt hsum hbt
  have hmap : equalizeStep ts bt
      = ts.map (fun p => (p.1, p.2 * (bt / (ts.map (fun q => q.2)).sum))) := by
    unfold equalizeStep
    rw [if_pos ⟨hsum, hbt⟩]
  refine ⟨hmap, ?_, ?_⟩
  · rw [hmap, sum_map_scale]
    field_simp
  · intro p _
    have hs : (ts.map (fun q => q.2)).sum ≠ 0 := ne_of_gt hsum
    have hb : bt ≠ 0 := ne_of_gt hbt
    field_simp
    ring

/-- Witness for C8: declared share 500 against raw sum 250 doubles the
single leaf count to 500, which then equals the declared share. -/
theorem c8_equalization_witness :
    equalizeStep [("cmd;t;x".data, 250)] 500
        = [("cmd;t;x".data, 250)].map
            (fun p => (p.1, p.2 * (500 / (([("cmd;t;x".data, (250 : ℚ))].map (fun q => q.2)).sum))))
      ∧ ((equalizeStep [("cmd;t;x".data, 250)] 500).map (fun p => p.2)).sum = 500
      ∧ ∀ p ∈ [("cmd;t;x".data, (250 : ℚ))],
          p.2 * (500 / (([("cmd;t;x".data, (250 : ℚ))].map (fun q => q.2)).sum))
              / 500
            = p.2 / (([("cmd;t;x".data, (250 : ℚ))].map (fun q => q.2)).sum) :=
  c8_equalization [("cmd;t;x".data, 250)] 500 (by norm_num) (by norm_num)

/-- Counterexample for C8 as stated: a root `foo` (no `__start_thread` in
its symbol) with declared share `1000 × 50% = 500` and raw leaf sum
`1000 × 0.5 × 0.5 = 250`, parsed with equalization enabled, keeps the
unscaled count 250 — the claim's unconditional rescaling to 500 does not
happen. -/
theorem c8_counterexample :
    parse_entry_callstack ["   -- foo".data, "   |--50.00%-- x".data] 0 ("cmd".data)
        50 100 10 true
      = [("cmd;foo;x".data, 250)]
    ∧ (250 : ℚ) ≠ 500 := by
  constructor
  · with_unfolding_all rfl
  · norm_num

theorem pyRound_nonneg (v : ℚ) (hv : 0 < v) : 0 ≤ pyRound v := by
  have hfl : (0 : ℤ) ≤ ⌊v⌋ := Int.floor_nonneg.mpr (le_of_lt hv)
  unfold pyRound
  dsimp only
  split_ifs <;> omega

/-- C3, amended.  A pair belongs to the final stack map iff its key has an
accumulated value strictly greater than zero in the raw map and its count
is that value rounded half-to-even; hence every final count is
non-negative — but not necessarily strictly positive: a positive value
below one half survives the `v > 0` filter and is rounded to 0 (see the
counterexample), contrary to the original claim. -/
theorem c3_final_counts :
    ∀ (m : List (PyStr × ℚ)) (p : PyStr × ℤ),
      (p ∈ finalize_stacks m ↔ ∃ v : ℚ, (p.1, v) ∈ m ∧ 0 < v ∧ p.2 = pyRound v)
      ∧ (p ∈ finalize_stacks m → 0 ≤ p.2) := by
  intro m p
  have hmem : p ∈ finalize_stacks m ↔ ∃ v : ℚ, (p.1, v) ∈ m ∧ 0 < v ∧ p.2 = pyRound v := by
    unfold finalize_stacks
    rw [List.mem_map]
    constructor
    · rintro ⟨q, hq, rfl⟩
      rw [List.mem_filter] at hq
      exact ⟨q.2, by simpa using hq.1, by simpa using hq.2, rfl⟩
    · rintro ⟨v, hvm, hv, hp2⟩
      refine ⟨(p.1, v), ?_, ?_⟩
      · rw [List.mem_filter]
        exact ⟨hvm, by simpa using hv⟩
      · simp only
        rw [← hp2]
  refine ⟨hmem, fun hp => ?_⟩
  obtain ⟨v, _, hv, hp2⟩ := hmem.mp hp
  rw [hp2]
  exact pyRound_nonneg v hv

/-- Witness for C3: the raw value `3/10` is positive and rounds to `0`, so
the entry `(k, 0)` is in the final map and its count is (only)
non-negative. -/
theorem c3_final_counts_witness :
    (("k".data, (0 : ℤ)) ∈ finalize_stacks [("k".data, 3 / 10)] ↔
      ∃ v : ℚ, ("k".data, v) ∈ [("k".data, (3 : ℚ) / 10)] ∧ 0 < v ∧ (0 : ℤ) = pyRound v)
    ∧ (("k".data, (0 : ℤ)) ∈ finalize_stacks [("k".data, 3 / 10)] → 0 ≤ (0 : ℤ)) :=
  c3_final_counts [("k".data, 3 / 10)] ("k".data, 0)

/-- Counterexample for C3 as stated: event total 1 with a brief-mode row of
`Children% = 30` accumulates the float `0.3 > 0`; it passes the `v > 0`
filter and is rounded to 0, so the returned map contains `cmd;sym` with
count 0 — an entry whose count is not strictly positive. -/
theorem c3_counterexample :
    (parse_report_text
        ["Event count: 1".data, "Samples: 1".data, "30.00%  5.00%  cmd  1  2  sym".data]
        false false false).map (fun r => r.final)
      = some [("cmd;sym".data, 0)]
    ∧ ¬(0 : ℤ) > 0 := by
  constructor
  · with_unfolding_all rfl
  · omega

/-- C4, amended.  Counts that reach the top-level stack map — from
different roots or different top-level rows — are merged by summation
(`addToQ` adds to the existing total, never overwrites); but inside a
single root's tree, an `emit_leaf` whose serialized path was already
emitted adds nothing: the duplicate occurrence's count is dropped (see the
counterexample). -/
theorem c4_duplicate_paths :
    (∀ (m : List (PyStr × ℚ)) (k : PyStr) (v : ℚ),
      lookupQ (addToQ m k v) k = lookupQ m k + v)
    ∧ (∀ (cp : Option ℚ) (et : ℚ) (bp : List PyStr) (ctx : List (List PyStr))
        (es : TreeEmitSt) (fp : List Frame),
      tree_key bp ctx fp ∈ es.emitted → (emit_leaf cp et bp ctx es fp).stacks = es.stacks) := by
  constructor
  · exact lookupQ_addToQ
  · intro cp et bp ctx es fp hkey
    rw [emit_leaf_emitted cp et bp ctx es fp hkey]

/-- Witness for C4: summation at an existing key, and a dropped duplicate
emission at a concrete already-emitted path. -/
theorem c4_duplicate_paths_witness :
    lookupQ (addToQ [("k".data, (3 : ℚ))] ("k".data) 4) ("k".data)
        = lookupQ [("k".data, (3 : ℚ))] ("k".data) + 4
    ∧ (emit_leaf none 10 ["r".data] []
        { «stacks» := [(joinSemi ["r".data, "g".data], 7)],
          emitted := [joinSemi ["r".data, "g".data]] }
        [{ name := "g".data, pct := none, child := false }]).stacks
      = [(joinSemi ["r".data, "g".data], 7)] :=
  ⟨c4_duplicate_paths.1 [("k".data, 3)] ("k".data) 4,
   c4_duplicate_paths.2 none 10 ["r".data] [] _ _ (by with_unfolding_all decide)⟩

/-- Counterexample for C4 as stated: the tree `root → y(20%), root → y(10%)`
produces the serialized path `cmd;root;y` twice in one parse, but the final
map holds only the first count 200 — the duplicate's 100 was dropped by the
per-tree emitted set instead of being summed to 300. -/
theorem c4_counterexample :
    (parse_report_text
        ["Event count: 1000".data, "Samples: 10".data,
         "100.00%  0.00%  cmd  3  4  root".data, "   -- root".data,
         "   |--20.00%-- y".data, "   |--10.00%-- y".data]
        false false false).map (fun r => r.final)
      = some [("cmd;root;y".data, 200)]
    ∧ (200 : ℤ) ≠ 300 := by
  constructor
  · with_unfolding_all rfl
  · omega

theorem pyContains_iff_sub (pat : PyStr) : ∀ s : PyStr,
    pyContains s pat = true ↔ pat <:+: s := by
  intro s
  induction s with
  | nil =>
    simp only [pyContains, List.isEmpty_iff, List.infix_nil]
  | cons c t ih =>
    simp only [pyContains, Bool.or_eq_true, ih]
    constructor
    · rintro (h | h)
      · exact List.infix_cons_iff.mpr (Or.inl (by simpa using h))
      · exact List.infix_cons h
    · intro h
      rcases List.infix_cons_iff.mp h with h | h
      · left; simpa using h
      · right; exact h

theorem infix_dropWhile_iff (c : Char) (p : PyStr) (hc : pyIsSpace c = false) :
    ∀ l : PyStr, ((c :: p) <:+: l.dropWhile pyIsSpace) ↔ ((c :: p) <:+: l) := by
  intro l
  induction l with
  | nil => simp [List.dropWhile]
  | cons a t ih =>
    by_cases ha : pyIsSpace a = true
    · rw [List.dropWhile_cons, if_pos ha, ih]
      constructor
      · exact List.infix_cons
      · intro h
        rcases List.infix_cons_iff.mp h with h | h
        · exfalso
          have hca : c = a := (List.cons_prefix_cons.mp h).1
          rw [hca, ha] at hc
          exact absurd hc (by simp)
        · exact h
    · rw [List.dropWhile_cons, if_neg ha]

theorem infix_strip_iff (c1 c2 : Char) (mid : PyStr)
    (hc1 : pyIsSpace c1 = false) (hc2 : pyIsSpace c2 = false)
    (hrev : (c1 :: (mid ++ [c2])).reverse = c2 :: (mid.reverse ++ [c1])) (l : PyStr) :
    ((c1 :: (mid ++ [c2])) <:+: pyStrip l) ↔ ((c1 :: (mid ++ [c2])) <:+: l) := by
  have hr : ∀ x : PyStr, ((c1 :: (mid ++ [c2])) <:+: pyRStrip x)
      ↔ ((c1 :: (mid ++ [c2])) <:+: x) := by
    intro x
    unfold pyRStrip
    rw [show (c1 :: (mid ++ [c2])) <:+: (x.reverse.dropWhile pyIsSpace).reverse
        ↔ (c1 :: (mid ++ [c2])).reverse <:+: x.reverse.dropWhile pyIsSpace from by
      constructor
      · intro h
        have := List.reverse_infix.mpr h
        simpa using this
      · intro h
        have := List.reverse_infix.mpr h
        simpa using this]
    rw [hrev, infix_dropWhile_iff c2 (mid.reverse ++ [c1]) hc2 x.reverse, ← hrev,
      List.reverse_infix]
  unfold pyStrip
  rw [hr (pyLStrip l)]
  unfold pyLStrip
  rw [infix_dropWhile_iff c1 (mid ++ [c2]) hc1 l]

/-- C5: the detector classifies the report as full-tree mode iff some line,
after stripping, begins with the root marker `-- ` or contains the
branch-pipe marker `|--` (containment is insensitive to stripping because
the marker has no whitespace); with no tree marker the scan yields `false`
and the row loop treats every row as a brief-mode row. -/
theorem c5_format_detection (lines : List PyStr) :
    has_tree lines = true
      ↔ ∃ l ∈ lines,
          pyStartsWith (pyStrip l) dashSpTok = true
          ∨ pyContains (pyStrip l) pipeDashTok = true := by
  unfold has_tree
  rw [List.any_eq_true]
  constructor
  · rintro ⟨l, hl, h⟩
    rw [Bool.or_eq_true] at h
    refine ⟨l, hl, ?_⟩
    rcases h with h | h
    · exact Or.inl h
    · refine Or.inr ?_
      rw [pyContains_iff_sub] at h ⊢
      exact (infix_strip_iff '|' '-' ['-'] (by decide) (by decide) (by decide) l).mpr h
  · rintro ⟨l, hl, h⟩
    refine ⟨l, hl, ?_⟩
    rw [Bool.or_eq_true]
    rcases h with h | h
    · exact Or.inl h
    · refine Or.inr ?_
      rw [pyContains_iff_sub] at h ⊢
      exact (infix_strip_iff '|' '-' ['-'] (by decide) (by decide) (by decide) l).mp h

theorem parse_report_text_none_iff (lines : List PyStr)
    (reverse dedug_first_start equalize_root_sum : Bool) :
    parse_report_text lines reverse dedug_first_start equalize_root_sum = none
      ↔ ((scanHeader lines).event_count = none ∨ (scanHeader lines).total_samples = none) := by
  unfold parse_report_text
  cases h1 : (scanHeader lines).event_count with
  | none => simp [h1]
  | some ec =>
    cases h2 : (scanHeader lines).total_samples with
    | none => simp [h1, h2]
    | some ts => simp [h1, h2]

/-- C9: parsing aborts (`none`, modelling `sys.exit(1)`) exactly when the
header scan fails to produce an integer event count or an integer sample
count; when both are present the function returns a result — no other
header condition is fatal. -/
theorem c9_header_abort (lines : List PyStr) (reverse dedug_first_start equalize_root_sum : Bool) :
    parse_report_text lines reverse dedug_first_start equalize_root_sum = none
      ↔ ((scanHeader lines).event_count = none ∨ (scanHeader lines).total_samples = none) :=
  parse_report_text_none_iff lines reverse dedug_first_start equalize_root_sum

theorem foldl_header_event_count (ls : List PyStr) (st : HeaderInfo)
    (h : ∀ l ∈ ls, pyStartsWith (pyStrip l) eventCountTok = false) :
    (ls.foldl headerLineStep st).event_count = st.event_count := by
  induction ls generalizing st with
  | nil => rfl
  | cons l t ih =>
    rw [List.foldl_cons, ih _ (fun x hx => h x (by simp [hx]))]
    have hl := h l (by simp)
    unfold headerLineStep
    dsimp only
    split_ifs <;> simp_all

/-- C10: header fields are recognized only within the first 40 lines — the
header scan depends only on `lines.take 40`, and an input whose stripped
`Event count:` line does not occur among the first 40 lines makes
`parse_report_text` abort, even if the field appears later. -/
theorem c10_header_window :
    (∀ lines : List PyStr, scanHeader lines = scanHeader (lines.take 40))
    ∧ (∀ (lines : List PyStr) (reverse dedug_first_start equalize_root_sum : Bool),
        (∀ l ∈ lines.take 40, pyStartsWith (pyStrip l) eventCountTok = false) →
        parse_report_text lines reverse dedug_first_start equalize_root_sum = none) := by
  constructor
  · intro lines
    unfold scanHeader
    rw [List.take_take]
    norm_num
  · intro lines r d e h
    have hec : (scanHeader lines).event_count = none := by
      unfold scanHeader
      exact foldl_header_event_count (lines.take 40) _ h
    exact (parse_report_text_none_iff lines r d e).mpr (Or.inl hec)

/-- Witness for C10: forty filler lines followed by perfectly good
`Event count:` and `Samples:` lines at positions 41 and 42 still abort. -/
theorem c10_header_window_witness :
    parse_report_text
        (List.replicate 40 ("x".data) ++ ["Event count: 1000".data, "Samples: 10".data])
        false false false
      = none :=
  c10_header_window.2
    (List.replicate 40 ("x".data) ++ ["Event count: 1000".data, "Samples: 10".data])
    false false false (by decide)

/-! ## C7: brief-mode runs -/

/-- Collapse consecutive duplicate entries of a list. -/
def collapseAdj : List PyStr → List PyStr
  | [] => []
  | [s] => [s]
  | s :: s2 :: t => if s = s2 then collapseAdj (s2 :: t) else s :: collapseAdj (s2 :: t)

/-- The claim-side description of a brief block's frame sequence: the rows'
nonempty symbols in encounter order with consecutive duplicates
collapsed. -/
def specRunSymbols (rows : List Row) : List PyStr :=
  collapseAdj ((rows.map (fun r => r.symbol)).filter (fun s => !s.isEmpty))

/-- The thread identity of a row. -/
def rowKey (r : Row) : PyStr × PyStr × PyStr := (r.command, r.pid, r.tid)

/-- The claim-side description of the block accumulated for a contiguous
run `r :: rest` of same-thread rows: the first row's command and
`Children%`, and the run's collapsed symbols. -/
def blockOfRun (r : Row) (rest : List Row) : Block :=
  { thread_key := rowKey r,
    command := r.command,
    symbols := specRunSymbols (r :: rest),
    block_pct := r.pct,
    skip := false }

theorem collapseAdj_ne_nil : ∀ xs : List PyStr, xs ≠ [] → collapseAdj xs ≠ []
  | [], h => absurd rfl h
  | [s], _ => by simp [collapseAdj]
  | s :: s2 :: t, _ => by
    have ih := collapseAdj_ne_nil (s2 :: t) (by simp)
    by_cases hss : s = s2
    · simpa [collapseAdj, hss] using ih
    · simp [collapseAdj, hss]

theorem collapseAdj_getLast? : ∀ xs : List PyStr, (collapseAdj xs).getLast? = xs.getLast?
  | [] => rfl
  | [s] => rfl
  | s :: s2 :: t => by
    have ih := collapseAdj_getLast? (s2 :: t)
    by_cases hss : s = s2
    · rw [show collapseAdj (s :: s2 :: t) = collapseAdj (s2 :: t) from by
        simp [collapseAdj, hss]]
      rw [ih, List.getLast?_cons_cons]
    · rw [show collapseAdj (s :: s2 :: t) = s :: collapseAdj (s2 :: t) from by
        simp [collapseAdj, hss]]
      cases h : collapseAdj (s2 :: t) with
      | nil => exact absurd h (collapseAdj_ne_nil (s2 :: t) (by simp))
      | cons a u =>
        rw [List.getLast?_cons_cons, ← h, ih, List.getLast?_cons_cons]

theorem collapseAdj_snoc (y : PyStr) : ∀ xs : List PyStr,
    collapseAdj (xs ++ [y])
      = if xs.getLast? = some y then collapseAdj xs else collapseAdj xs ++ [y]
  | [] => by simp [collapseAdj]
  | [x] => by
    by_cases hxy : x = y
    · simp [collapseAdj, hxy]
    · simp [collapseAdj, hxy]
  | x1 :: x2 :: t => by
    have ih := collapseAdj_snoc y (x2 :: t)
    have hgl : (x1 :: x2 :: t).getLast? = (x2 :: t).getLast? := List.getLast?_cons_cons
    by_cases hx : x1 = x2
    · rw [show (x1 :: x2 :: t) ++ [y] = x1 :: x2 :: (t ++ [y]) from by simp,
        show collapseAdj (x1 :: x2 :: (t ++ [y])) = collapseAdj (x2 :: (t ++ [y])) from by
          simp [collapseAdj, hx],
        show (x2 :: (t ++ [y])) = (x2 :: t) ++ [y] from by simp, ih, hgl]
      by_cases hg : (x2 :: t).getLast? = some y
      · rw [if_pos hg, if_pos hg,
          show collapseAdj (x1 :: x2 :: t) = collapseAdj (x2 :: t) from by simp [collapseAdj, hx]]
      · rw [if_neg hg, if_neg hg,
          show collapseAdj (x1 :: x2 :: t) = collapseAdj (x2 :: t) from by simp [collapseAdj, hx]]
    · rw [show (x1 :: x2 :: t) ++ [y] = x1 :: x2 :: (t ++ [y]) from by simp,
        show collapseAdj (x1 :: x2 :: (t ++ [y])) = x1 :: collapseAdj (x2 :: (t ++ [y])) from by
          simp [collapseAdj, hx],
        show (x2 :: (t ++ [y])) = (x2 :: t) ++ [y] from by simp, ih, hgl]
      by_cases hg : (x2 :: t).getLast? = some y
      · rw [if_pos hg, if_pos hg,
          show collapseAdj (x1 :: x2 :: t) = x1 :: collapseAdj (x2 :: t) from by
            simp [collapseAdj, hx]]
      · rw [if_neg hg, if_neg hg,
          show collapseAdj (x1 :: x2 :: t) = x1 :: collapseAdj (x2 :: t) from by
            simp [collapseAdj, hx]]
        exact (List.cons_append x1 (collapseAdj (x2 :: t)) [y]).symm

theorem specRunSymbols_snoc (rows : List Row) (r' : Row) :
    specRunSymbols (rows ++ [r'])
      = if !r'.symbol.isEmpty
          && ((specRunSymbols rows).isEmpty
              || !((specRunSymbols rows).getLastD [] == r'.symbol)) then
          specRunSymbols rows ++ [r'.symbol]
        else specRunSymbols rows := by
  set fs := (rows.map (fun r => r.symbol)).filter (fun s => !s.isEmpty) with hfs
  by_cases hsym : r'.symbol.isEmpty
  · have : specRunSymbols (rows ++ [r']) = specRunSymbols rows := by
      unfold specRunSymbols
      rw [List.map_append, List.filter_append]
      simp [hsym]
    rw [this, hsym]
    simp
  · have hfilter : ((rows ++ [r']).map (fun r => r.symbol)).filter (fun s => !s.isEmpty)
        = fs ++ [r'.symbol] := by
      rw [List.map_append, List.filter_append, hfs]
      simp [hsym]
    have hspec : specRunSymbols (rows ++ [r']) = collapseAdj (fs ++ [r'.symbol]) := by
      unfold specRunSymbols
      rw [hfilter]
    rw [hspec, collapseAdj_snoc]
    have hS : specRunSymbols rows = collapseAdj fs := rfl
    by_cases hempty : fs = []
    · rw [hempty]
      simp [hS, hempty, collapseAdj, hsym]
    · have hne : collapseAdj fs ≠ [] := collapseAdj_ne_nil fs hempty
      obtain ⟨z, hz⟩ : ∃ z, fs.getLast? = some z := by
        cases h : fs.getLast? with
        | none => exact absurd (List.getLast?_eq_none_iff.mp h) hempty
        | some z => exact ⟨z, rfl⟩
      have hlastS : (collapseAdj fs).getLast? = some z := by rw [collapseAdj_getLast?, hz]
      have hgetD : (collapseAdj fs).getLastD [] = z := by
        rw [List.getLastD_eq_getLast?, hlastS]
        rfl
      rw [hS, hz, hgetD]
      have hSne : (collapseAdj fs).isEmpty = false := by
        simpa [List.isEmpty_iff] using hne
      by_cases hzy : z = r'.symbol
      · simp [hzy, hsym, hSne]
      · simp [hzy, hsym, hSne, Ne.symm]

theorem briefFold_same_key (reverse dedug_first_start : Bool) (et : ℚ) (r : Row)
    (run : List Row) (hk : ∀ r' ∈ run, rowKey r' = rowKey r) :
    ∀ (done : List Row) (st : ReportState), st.current = some (blockOfRun r done) →
      run.foldl (briefRowStep reverse dedug_first_start et) st
        = { st with current := some (blockOfRun r (done ++ run)) } := by
  induction run with
  | nil =>
    intro done st hcur
    obtain ⟨s, c, e⟩ := st
    simp only [List.foldl_nil, List.append_nil]
    simp only at hcur
    rw [hcur]
  | cons r2 rest ih =>
    intro done st hcur
    rw [List.foldl_cons]
    have hk2 : rowKey r2 = rowKey r := hk r2 (by simp)
    have hstep : briefRowStep reverse dedug_first_start et st r2
        = { st with current := some (blockOfRun r (done ++ [r2])) } := by
      unfold briefRowStep
      rw [hcur]
      dsimp only
      have hkey : (r2.command, r2.pid, r2.tid) = (blockOfRun r done).thread_key := by
        simpa [blockOfRun, rowKey] using hk2
      rw [if_pos hkey]
      have hsymb : (blockOfRun r (done ++ [r2])).symbols
          = if !r2.symbol.isEmpty
              && ((blockOfRun r done).symbols.isEmpty
                  || !((blockOfRun r done).symbols.getLastD [] == r2.symbol)) then
              (blockOfRun r done).symbols ++ [r2.symbol]
            else (blockOfRun r done).symbols := by
        show specRunSymbols (r :: (done ++ [r2])) = _
        rw [show r :: (done ++ [r2]) = (r :: done) ++ [r2] from by simp]
        exact specRunSymbols_snoc (r :: done) r2
      by_cases hcond : (!r2.symbol.isEmpty
          && ((blockOfRun r done).symbols.isEmpty
              || !((blockOfRun r done).symbols.getLastD [] == r2.symbol))) = true
      · rw [if_pos hcond]
        rw [if_pos hcond] at hsymb
        congr 1
        congr 1
        simp only [blockOfRun] at hsymb ⊢
        rw [← hsymb]
      · rw [if_neg hcond]
        rw [if_neg hcond] at hsymb
        have hblk : blockOfRun r (done ++ [r2]) = blockOfRun r done := by
          simp only [blockOfRun] at hsymb ⊢
          rw [hsymb]
        rw [hblk, ← hcur]
    rw [hstep]
    rw [ih (fun r' hr' => hk r' (by simp [hr'])) (done ++ [r2])
      { st with current := some (blockOfRun r (done ++ [r2])) } rfl]
    simp

/-- C7, amended.  First conjunct: folding a contiguous run of top-level
rows that all share the first row's thread identity, starting with no open
block, accumulates exactly one block whose command and `Children%` are the
first row's (later rows' percentages never enter the state) and whose
symbol sequence is the rows' nonempty symbols in encounter order with
consecutive duplicates collapsed.  Second conjunct: flushing that block
(default options) adds exactly one stack, keyed by the command followed by
the block's symbols and counted as `event_total × block_pct / 100`, when
that count is positive and the block is non-empty and not skipped. -/
theorem c7_brief_run :
    (∀ (reverse dedug_first_start : Bool) (et : ℚ) (r : Row) (run : List Row)
        (st : ReportState),
      (∀ r' ∈ run, rowKey r' = rowKey r) → st.current = none →
      (r :: run).foldl (briefRowStep reverse dedug_first_start et) st
        = { st with current := some (blockOfRun r run) })
    ∧ (∀ (et : ℚ) (st : ReportState) (blk : Block),
        st.current = some blk → blk.skip = false → blk.symbols ≠ [] →
        0 < et * (blk.block_pct / 100) →
        flush_current_block false false et st
          = { st with
              «stacks» := addToQ st.stacks (joinSemi (blk.command :: blk.symbols))
                (et * (blk.block_pct / 100)) }) := by
  constructor
  · intro reverse dedug et r run st hk hcur
    rw [List.foldl_cons]
    have hstep : briefRowStep reverse dedug et st r
        = { st with current := some (blockOfRun r []) } := by
      unfold briefRowStep
      rw [hcur]
      have : newBlock r = blockOfRun r [] := by
        unfold newBlock blockOfRun specRunSymbols rowKey
        by_cases h : r.symbol.isEmpty
        · simp [h, collapseAdj]
        · simp [h, collapseAdj]
      rw [this]
    rw [hstep, briefFold_same_key reverse dedug et r run hk []
      { st with current := some (blockOfRun r []) } rfl]
    simp
  · intro et st blk hcur hskip hsym hcnt
    unfold flush_current_block
    rw [hcur]
    dsimp only
    have h1 : blk.symbols.isEmpty = false := by simpa [List.isEmpty_iff] using hsym
    rw [if_neg (by simp [h1]), if_neg (by simp [hskip]), if_pos hcnt]
    simp

/-- Witness for C7: two contiguous rows of the same thread with the same
symbol `s` and percentages 50 and 40 accumulate one block with symbols
`[s]` (duplicate collapsed) and the first row's 50; flushing it at
`event_total = 1000` adds the single stack `cmd;s` with count 500. -/
theorem c7_brief_run_witness :
    ([⟨"cmd".data, "1".data, "2".data, "s".data, 50⟩,
      ⟨"cmd".data, "1".data, "2".data, "s".data, 40⟩] : List Row).foldl
        (briefRowStep false false 1000)
        { «stacks» := [], current := none, emitted_threads := [] }
      = { «stacks» := [], current := some (blockOfRun
            ⟨"cmd".data, "1".data, "2".data, "s".data, 50⟩
            [⟨"cmd".data, "1".data, "2".data, "s".data, 40⟩]),
          emitted_threads := [] }
    ∧ flush_current_block false false 1000
        { «stacks» := [], current := some (blockOfRun
            ⟨"cmd".data, "1".data, "2".data, "s".data, 50⟩
            [⟨"cmd".data, "1".data, "2".data, "s".data, 40⟩]),
          emitted_threads := [] }
      = { «stacks» := addToQ []
            (joinSemi ((blockOfRun ⟨"cmd".data, "1".data, "2".data, "s".data, 50⟩
              [⟨"cmd".data, "1".data, "2".data, "s".data, 40⟩]).command
              :: (blockOfRun ⟨"cmd".data, "1".data, "2".data, "s".data, 50⟩
                [⟨"cmd".data, "1".data, "2".data, "s".data, 40⟩]).symbols))
            (1000 * ((blockOfRun ⟨"cmd".data, "1".data, "2".data, "s".data, 50⟩
              [⟨"cmd".data, "1".data, "2".data, "s".data, 40⟩]).block_pct / 100)),
          current := some (blockOfRun ⟨"cmd".data, "1".data, "2".data, "s".data, 50⟩
            [⟨"cmd".data, "1".data, "2".data, "s".data, 40⟩]),
          emitted_threads := [] } :=
  ⟨c7_brief_run.1 false false 1000 _ _ _ (by intro r' hr'; fin_cases hr'; rfl) rfl,
   c7_brief_run.2 1000 _ _ rfl rfl (by with_unfolding_all decide)
     (by with_unfolding_all decide)⟩

/-- Counterexample for C7 as stated: two contiguous same-thread rows with
the identical symbol `s` do not produce the claimed frame sequence
`[s, s]` — the adjacent duplicate is collapsed, so the emitted stack is
`cmd;s` (count `1000 × 50% = 500`), not `cmd;s;s`. -/
theorem c7_counterexample :
    (parse_report_text
        ["Event count: 1000".data, "Samples: 10".data,
         "50.00%  1.00%  cmd  1  2  s".data, "40.00%  1.00%  cmd  1  2  s".data]
        false false false).map (fun res => res.final)
      = some [("cmd;s".data, 500)]
    ∧ "cmd;s".data ≠ "cmd;s;s".data := by
  constructor
  · with_unfolding_all rfl
  · decide

end SPerf
